import Mathlib

/-!
Verification of the core schema-conversion engine of `gptschema`
(`internal/converter.go`): a shallow embedding of the recursive
Go-type-to-JSON-Schema conversion, together with proofs of the spec's
claims about it.

Go's `reflect.Type` graph may be cyclic, so struct types are referenced
by name through an environment mapping struct names to field lists.
Go's shared, mutated `visited` map is modelled by threading the visited
set through every call and returning its final state; `defer delete`
is modelled by erasing the mark on every exit path.  The functions are
indexed by fuel (structural recursion), since on environments that are
not Go-representable (value-embedding cycles) the source would diverge.
-/

namespace GptSchema

/-- A JSON value stored inside a `Schema` map (Go's `interface{}` slots:
strings, bools, `[]string`, `[]Schema`, nested `Schema`). -/
inductive SVal where
  | str : String → SVal
  | boolV : Bool → SVal
  | strs : List String → SVal
  | svals : List SVal → SVal
  | obj : List (String × SVal) → SVal

/-- `Schema` (Go: `map[string]interface{}`), modelled as an association
list with distinct keys, built by overwrite-insertion. -/
abbrev SchemaM := List (String × SVal)

/-- The dynamic result of `JsonTypeOf` (Go: `interface{}`): either a bare
primitive name string or a structured `Schema`. -/
inductive JValue where
  | prim : String → JValue
  | schema : SchemaM → JValue

/-- Error outcomes.  `unsupportedType` and `circularRef` are the two Go
error values; `nonStructPanic` models the runtime panic of calling
`NumField` on a non-struct type; `noFuel` is the fuel sentinel of the
embedding (the source diverges only on non-Go-representable inputs). -/
inductive Err where
  | unsupportedType
  | circularRef
  | nonStructPanic
  | noFuel
deriving DecidableEq

/-- Go types, with struct types referenced by name into an `Env`
(reflect's type graph may be cyclic). -/
inductive GoType where
  | string | bool
  | int | int8 | int16 | int32 | int64
  | uint | uint8 | uint16 | uint32 | uint64
  | float32 | float64
  | ptr : GoType → GoType
  | slice : GoType → GoType
  | array : GoType → GoType
  | strukt : String → GoType
  | mapT : GoType → GoType → GoType
  | chan : GoType → GoType
  | func | iface
  | complex64 | complex128
deriving DecidableEq

/-- One declared struct field (`reflect.StructField`): declared name, the
value of `Tag.Get("json")`, the anonymous (embedded) flag, `PkgPath`
(empty iff exported), and the field's type. -/
structure GoField where
  name : String
  tag : String
  anonymous : Bool
  pkgPath : String
  type : GoType
deriving DecidableEq

/-- Environment: named struct types and their declared field lists. -/
abbrev Env := List (String × List GoField)

/-- Field list of a named struct type (a name absent from the
environment denotes an empty struct). -/
def lookupEnv (env : Env) (n : String) : List GoField :=
  match env.find? (fun p => p.1 == n) with
  | some p => p.2
  | none => []

/-- `Options` (converter.go). -/
structure Options where
  allowAdditionalProperty : Bool
  maxDepth : Int
deriving DecidableEq

/-- `DefaultOptions` (converter.go). -/
def defaultOptions : Options := { allowAdditionalProperty := false, maxDepth := 50 }

/-- `deref` (converter.go): strip pointer indirection. -/
def deref : GoType → GoType
  | .ptr t => deref t
  | t => t

/-- Split a character list at commas (Go: `strings.Split(tag, ",")`;
`","` is a single byte, so splitting the rune sequence coincides with
Go's byte-wise split). -/
def splitCommaAux : List Char → List Char → List String
  | [], acc => [String.mk acc.reverse]
  | c :: cs, acc =>
    if c = ',' then String.mk acc.reverse :: splitCommaAux cs []
    else splitCommaAux cs (c :: acc)

/-- `strings.Split(s, ",")`: never returns an empty list. -/
def splitComma (s : String) : List String := splitCommaAux s.data []

/-- `parseJSONTag` (converter.go): split the tag at commas; a non-empty
first segment overrides the field name; any later segment equal to
`omitempty` marks the field optional. -/
def parseJSONTag (fieldName tag : String) : String × Bool :=
  if tag = "" then (fieldName, false)
  else
    match splitComma tag with
    | [] => (fieldName, false)
    | p0 :: ps =>
      let name := if p0 ≠ "" then p0 else fieldName
      (name, ps.contains "omitempty")

/-- Map-style insertion into an association list: overwrite in place if
the key is present, else append (Go: `props[k] = v`). -/
def insertAL (m : SchemaM) (k : String) (v : SVal) : SchemaM :=
  match m with
  | [] => [(k, v)]
  | (k', v') :: rest => if k' = k then (k, v) :: rest else (k', v') :: insertAL rest k v

/-- Map lookup in an association list. -/
def lookupAL (m : SchemaM) (k : String) : Option SVal :=
  match m with
  | [] => none
  | (k', v') :: rest => if k' = k then some v' else lookupAL rest k

/-- The key set of a schema map. -/
def keysAL (m : SchemaM) : List String := m.map Prod.fst

/-- Merge of embedded properties (Go: `for k, v := range embeddedProps {
props[k] = v }`): fold overwrite-insertion over the embedded entries. -/
def mergeAL (m em : SchemaM) : SchemaM :=
  em.foldl (fun acc p => insertAL acc p.1 p.2) m

/-- The visited set (Go: `map[reflect.Type]bool`), keyed by struct name. -/
abbrev Visited := List String

/-- Element type for the array branch (Go: `t.Elem()`; only ever applied
to slice/array types here). -/
def elemOf : GoType → GoType
  | .slice e => e
  | .array e => e
  | .ptr e => e
  | .mapT _ v => v
  | .chan e => e
  | t => t

/-- The `items` slot of an array schema stores the recursive result
as-is (Go puts the raw `interface{}` into the map). -/
def jvalToSVal : JValue → SVal
  | .prim s => .str s
  | .schema m => .obj m

mutual

/-- `JsonTypeOf` (converter.go): depth check, pointer deref, struct
cycle check with mark/`defer delete`, then kind dispatch.  Returns the
result together with the visited set as the caller observes it after
the call returns. -/
def jsonTypeOf (fuel : Nat) (env : Env) (t : GoType) (visited : Visited)
    (depth : Nat) (opts : Options) : Except Err JValue × Visited :=
  match fuel with
  | 0 => (.error .noFuel, visited)
  | fuel + 1 =>
    if (depth : Int) > opts.maxDepth then (.error .circularRef, visited)
    else
      match deref t with
      | .strukt name =>
        if name ∈ visited then (.error .circularRef, visited)
        else
          match structProperties fuel env (.strukt name) (name :: visited) (depth + 1) opts with
          | (.error e, v2) => (.error e, v2.erase name)
          | (.ok (props, required), v2) =>
            let base : SchemaM :=
              [("type", .str "object"), ("properties", .obj props),
               ("additionalProperties", .boolV opts.allowAdditionalProperty)]
            let schema := if required = [] then base else base ++ [("required", .strs required)]
            (.ok (.schema schema), v2.erase name)
      | .string => (.ok (.prim "string"), visited)
      | .bool => (.ok (.prim "boolean"), visited)
      | .int => (.ok (.prim "integer"), visited)
      | .int8 => (.ok (.prim "integer"), visited)
      | .int16 => (.ok (.prim "integer"), visited)
      | .int32 => (.ok (.prim "integer"), visited)
      | .int64 => (.ok (.prim "integer"), visited)
      | .uint => (.ok (.prim "integer"), visited)
      | .uint8 => (.ok (.prim "integer"), visited)
      | .uint16 => (.ok (.prim "integer"), visited)
      | .uint32 => (.ok (.prim "integer"), visited)
      | .uint64 => (.ok (.prim "integer"), visited)
      | .float32 => (.ok (.prim "number"), visited)
      | .float64 => (.ok (.prim "number"), visited)
      | .slice e =>
        match parseArrayItemType fuel env (.slice e) visited (depth + 1) opts with
        | (.error e2, v2) => (.error e2, v2)
        | (.ok items, v2) =>
          (.ok (.schema [("type", .str "array"), ("items", jvalToSVal items)]), v2)
      | .array e =>
        match parseArrayItemType fuel env (.array e) visited (depth + 1) opts with
        | (.error e2, v2) => (.error e2, v2)
        | (.ok items, v2) =>
          (.ok (.schema [("type", .str "array"), ("items", jvalToSVal items)]), v2)
      | .ptr _ => (.error .unsupportedType, visited)
      | .mapT _ _ => (.error .unsupportedType, visited)
      | .chan _ => (.error .unsupportedType, visited)
      | .func => (.error .unsupportedType, visited)
      | .iface => (.error .unsupportedType, visited)
      | .complex64 => (.error .unsupportedType, visited)
      | .complex128 => (.error .unsupportedType, visited)
  termination_by structural fuel

/-- `parseArrayItemType` (converter.go): convert the element type; wrap a
bare primitive name as `{"type": name}`, pass a structured schema
through unchanged. -/
def parseArrayItemType (fuel : Nat) (env : Env) (t : GoType) (visited : Visited)
    (depth : Nat) (opts : Options) : Except Err JValue × Visited :=
  match fuel with
  | 0 => (.error .noFuel, visited)
  | fuel + 1 =>
    match jsonTypeOf fuel env (elemOf t) visited depth opts with
    | (.error e, v2) => (.error e, v2)
    | (.ok (.prim s), v2) => (.ok (.schema [("type", .str s)]), v2)
    | (.ok (.schema m), v2) => (.ok (.schema m), v2)
  termination_by structural fuel

/-- `structProperties` (converter.go): iterate the declared fields of a
struct type.  Calling it on a non-struct type (possible through an
embedded non-struct field) panics in Go (`NumField`). -/
def structProperties (fuel : Nat) (env : Env) (t : GoType) (visited : Visited)
    (depth : Nat) (opts : Options) : Except Err (SchemaM × List String) × Visited :=
  match fuel with
  | 0 => (.error .noFuel, visited)
  | fuel + 1 =>
    match t with
    | .strukt name => structFields fuel env (lookupEnv env name) visited depth opts [] []
    | _ => (.error .nonStructPanic, visited)
  termination_by structural fuel

/-- The field loop of `structProperties` (converter.go, lines 94-151),
with the `props`/`required` accumulators explicit. -/
def structFields (fuel : Nat) (env : Env) (flds : List GoField) (visited : Visited)
    (depth : Nat) (opts : Options) (props : SchemaM) (required : List String) :
    Except Err (SchemaM × List String) × Visited :=
  match fuel with
  | 0 => (.error .noFuel, visited)
  | fuel + 1 =>
    match flds with
    | [] => (.ok (props, required), visited)
    | fld :: rest =>
      if fld.pkgPath ≠ "" then
        structFields fuel env rest visited depth opts props required
      else if fld.anonymous then
        match structProperties fuel env fld.type visited depth opts with
        | (.error e, v2) => (.error e, v2)
        | (.ok (eProps, eReq), v2) =>
          structFields fuel env rest v2 depth opts (mergeAL props eProps) (required ++ eReq)
      else if fld.tag = "-" then
        structFields fuel env rest visited depth opts props required
      else
        let pr := parseJSONTag fld.name fld.tag
        match jsonTypeOf fuel env fld.type visited depth opts with
        | (.error e, v2) => (.error e, v2)
        | (.ok fieldSchema, v2) =>
          let shaped : SVal :=
            match fieldSchema with
            | .prim s =>
              if pr.2 then .obj [("type", .strs [s, "null"])]
              else .obj [("type", .str s)]
            | .schema m =>
              if pr.2 then .obj [("anyOf", .svals [.obj m, .obj [("type", .str "null")]])]
              else .obj m
          structFields fuel env rest v2 depth opts (insertAL props pr.1 shaped) (required ++ [pr.1])
  termination_by structural fuel

end

/-- The signed/unsigned integer kinds grouped by the dispatch's
`case reflect.Int, ..., reflect.Uint64`. -/
def intKinds : List GoType :=
  [.int, .int8, .int16, .int32, .int64, .uint, .uint8, .uint16, .uint32, .uint64]

/-- The floating-point kinds (`case reflect.Float32, reflect.Float64`). -/
def floatKinds : List GoType := [.float32, .float64]

/-- Kinds that reach the dispatch's `default` branch: map, channel,
function, interface and complex-number kinds. -/
def isUnsupportedKind : GoType → Bool
  | .mapT _ _ => true
  | .chan _ => true
  | .func => true
  | .iface => true
  | .complex64 => true
  | .complex128 => true
  | _ => false

/-- Rank of a type under an embedding-rank assignment: the rank of the
struct name, 0 for non-struct types.  A rank function witnessing that
anonymous (embedded) struct references strictly descend certifies that
value embedding is well-founded, as Go's type system guarantees. -/
def rankOf (rank : String → Nat) : GoType → Nat
  | .strukt nm => rank nm
  | _ => 0

/-! ### Concrete type environments (mirroring internal/fixtures.go) -/

/-- `StructWithTags` from fixtures.go: tagged names, one `omitempty`. -/
def structWithTagsEnv : Env :=
  [("StructWithTags",
    [⟨"Name", "name", false, "", .string⟩,
     ⟨"Age", "age", false, "", .int⟩,
     ⟨"Email", "email,omitempty", false, "", .string⟩])]

/-- A struct with one field whose json tag is `-,omitempty`. -/
def dashOptEnv : Env :=
  [("DashOpt", [⟨"F", "-,omitempty", false, "", .int⟩])]

/-- A struct with one field whose json tag is exactly `-`. -/
def dashEnv : Env :=
  [("Skip", [⟨"Hidden", "-", false, "", .string⟩,
             ⟨"Shown", "shown", false, "", .string⟩])]

/-- An embedded struct whose emitted field name collides with a later
field of the outer struct. -/
def dupNameEnv : Env :=
  [("Base", [⟨"X", "x", false, "", .string⟩]),
   ("Outer", [⟨"Base", "", true, "", .strukt "Base"⟩,
              ⟨"Y", "x", false, "", .int⟩])]

/-- `BaseInfo`/`ExtendedInfo` from fixtures.go: plain embedding. -/
def embeddedEnv : Env :=
  [("BaseInfo", [⟨"ID", "id", false, "", .int⟩,
                 ⟨"CreatedAt", "created_at", false, "", .string⟩]),
   ("ExtendedInfo", [⟨"BaseInfo", "", true, "", .strukt "BaseInfo"⟩,
                     ⟨"Title", "title", false, "", .string⟩,
                     ⟨"Content", "content,omitempty", false, "", .string⟩])]

/-- A struct referencing itself directly. -/
def selfRefEnv : Env :=
  [("R", [⟨"Self", "self", false, "", .strukt "R"⟩])]

/-- `Node` from fixtures.go: a struct referencing itself through one
pointer level, in an optional field. -/
def nodeEnv : Env :=
  [("Node", [⟨"Value", "value", false, "", .string⟩,
             ⟨"Next", "next,omitempty", false, "", .ptr (.strukt "Node")⟩])]

/-- Two sibling fields of the same (non-cyclic) struct type. -/
def siblingEnv : Env :=
  [("Pair", [⟨"A", "a", false, "", .strukt "C"⟩,
             ⟨"B", "b", false, "", .strukt "C"⟩]),
   ("C", [⟨"X", "x", false, "", .int⟩])]

/-- A record with one nested record field (for the MaxDepth claim). -/
def nestedEnv : Env :=
  [("A", [⟨"B", "b", false, "", .strukt "B"⟩]),
   ("B", [⟨"X", "x", false, "", .int⟩])]

/-! ### Association-list lemmas -/

theorem mem_keysAL_insertAL (m : SchemaM) (k : String) (v : SVal) (x : String) :
    x ∈ keysAL (insertAL m k v) ↔ x = k ∨ x ∈ keysAL m := by
  induction m with
  | nil => simp [insertAL, keysAL]
  | cons hd tl ih =>
    obtain ⟨k', v'⟩ := hd
    by_cases h : k' = k
    · subst h
      simp [insertAL, keysAL]
    · simp only [insertAL, if_neg h, keysAL, List.map_cons, List.mem_cons]
      rw [show keysAL (insertAL tl k v) = List.map Prod.fst (insertAL tl k v) from rfl] at ih
      rw [show keysAL tl = List.map Prod.fst tl from rfl] at ih
      tauto

theorem lookupAL_insertAL_self (m : SchemaM) (k : String) (v : SVal) :
    lookupAL (insertAL m k v) k = some v := by
  induction m with
  | nil => simp [insertAL, lookupAL]
  | cons hd tl ih =>
    obtain ⟨k', v'⟩ := hd
    by_cases h : k' = k
    · subst h
      simp [insertAL, lookupAL]
    · simp [insertAL, if_neg h, lookupAL, h, ih]

theorem lookupAL_insertAL_ne (m : SchemaM) (k : String) (v : SVal) (x : String)
    (h : x ≠ k) : lookupAL (insertAL m k v) x = lookupAL m x := by
  induction m with
  | nil =>
    simp only [insertAL, lookupAL]
    rw [if_neg (fun hh : k = x => h hh.symm)]
  | cons hd tl ih =>
    obtain ⟨k', v'⟩ := hd
    by_cases hk : k' = k
    · subst hk
      simp only [insertAL, if_pos rfl, lookupAL]
      rw [if_neg (fun hh : k' = x => h hh.symm), if_neg (fun hh : k' = x => h hh.symm)]
    · simp only [insertAL, if_neg hk, lookupAL]
      by_cases hx : k' = x
      · rw [if_pos hx, if_pos hx]
      · rw [if_neg hx, if_neg hx, ih]

theorem mem_keysAL_mergeAL (m em : SchemaM) (x : String) :
    x ∈ keysAL (mergeAL m em) ↔ x ∈ keysAL m ∨ x ∈ keysAL em := by
  induction em generalizing m with
  | nil => simp [mergeAL, keysAL]
  | cons hd tl ih =>
    obtain ⟨k, v⟩ := hd
    show x ∈ keysAL (mergeAL (insertAL m k v) tl) ↔ _
    rw [ih, mem_keysAL_insertAL]
    simp [keysAL]
    tauto

theorem lookupAL_mergeAL_of_not_mem (m em : SchemaM) (k : String)
    (h : k ∉ keysAL em) : lookupAL (mergeAL m em) k = lookupAL m k := by
  induction em generalizing m with
  | nil => rfl
  | cons hd tl ih =>
    obtain ⟨k0, v0⟩ := hd
    simp only [keysAL, List.map_cons, List.mem_cons, not_or] at h
    show lookupAL (mergeAL (insertAL m k0 v0) tl) k = _
    rw [ih _ h.2, lookupAL_insertAL_ne _ _ _ _ h.1]

theorem lookupAL_mergeAL_of_mem (m em : SchemaM) (k : String)
    (hnd : (keysAL em).Nodup) (h : k ∈ keysAL em) :
    lookupAL (mergeAL m em) k = lookupAL em k := by
  induction em generalizing m with
  | nil => simp [keysAL] at h
  | cons hd tl ih =>
    obtain ⟨k0, v0⟩ := hd
    simp only [keysAL, List.map_cons, List.nodup_cons] at hnd
    show lookupAL (mergeAL (insertAL m k0 v0) tl) k = _
    by_cases hk : k = k0
    · subst hk
      rw [lookupAL_mergeAL_of_not_mem _ _ _ hnd.1, lookupAL_insertAL_self]
      simp [lookupAL]
    · simp only [keysAL, List.map_cons, List.mem_cons] at h
      rcases h with h | h
      · exact absurd h hk
      · rw [ih _ hnd.2 h]
        show _ = lookupAL ((k0, v0) :: tl) k
        simp only [lookupAL]
        rw [if_neg (fun hh : k0 = k => hk hh.symm)]

theorem nodup_keysAL_insertAL (m : SchemaM) (k : String) (v : SVal)
    (h : (keysAL m).Nodup) : (keysAL (insertAL m k v)).Nodup := by
  induction m with
  | nil => simp [insertAL, keysAL]
  | cons hd tl ih =>
    obtain ⟨k', v'⟩ := hd
    simp only [keysAL, List.map_cons, List.nodup_cons] at h
    by_cases hk : k' = k
    · subst hk
      simpa [insertAL, keysAL] using h
    · simp only [insertAL, if_neg hk, keysAL, List.map_cons, List.nodup_cons]
      refine ⟨fun hc => ?_, ih h.2⟩
      rw [show List.map Prod.fst (insertAL tl k v) = keysAL (insertAL tl k v) from rfl,
        mem_keysAL_insertAL] at hc
      rcases hc with hc | hc
      · exact hk hc
      · exact h.1 hc

theorem nodup_keysAL_mergeAL (m em : SchemaM)
    (h : (keysAL m).Nodup) : (keysAL (mergeAL m em)).Nodup := by
  induction em generalizing m with
  | nil => exact h
  | cons hd tl ih =>
    obtain ⟨k, v⟩ := hd
    exact ih _ (nodup_keysAL_insertAL _ _ _ h)

/-! ### The visited set is restored on every exit path -/

/-- Every call returns the visited set exactly as it received it: the
mark added on entry to a struct expansion is erased on success and on
error alike (Go's `defer delete`). -/
theorem visited_preserved (n : Nat) (env : Env) :
    (∀ t v d o, (jsonTypeOf n env t v d o).2 = v) ∧
    (∀ t v d o, (parseArrayItemType n env t v d o).2 = v) ∧
    (∀ t v d o, (structProperties n env t v d o).2 = v) ∧
    (∀ fl v d o p r, (structFields n env fl v d o p r).2 = v) := by
  induction n with
  | zero =>
    exact ⟨fun _ _ _ _ => rfl, fun _ _ _ _ => rfl, fun _ _ _ _ => rfl,
      fun _ _ _ _ _ _ => rfl⟩
  | succ n ih =>
    obtain ⟨ihJ, ihP, ihS, ihF⟩ := ih
    refine ⟨?_, ?_, ?_, ?_⟩
    · intro t v d o
      simp only [jsonTypeOf]
      split
      · rfl
      · split <;> try rfl
        · -- struct case
          rename_i name _
          split
          · rfl
          · rcases hsp : structProperties n env (.strukt name) (name :: v) (d + 1) o
              with ⟨r, v2⟩
            have hv2 : v2 = name :: v := by
              have := ihS (.strukt name) (name :: v) (d + 1) o
              rw [hsp] at this
              exact this
            cases r with
            | error e => simp [hv2]
            | ok pr =>
              obtain ⟨props, required⟩ := pr
              simp [hv2]
        · -- slice case
          rename_i e _
          rcases hpa : parseArrayItemType n env (.slice e) v (d + 1) o with ⟨r, v2⟩
          have hv2 : v2 = v := by
            have := ihP (.slice e) v (d + 1) o
            rw [hpa] at this
            exact this
          cases r with
          | error e2 => simpa using hv2
          | ok items => simpa using hv2
        · -- array case
          rename_i e _
          rcases hpa : parseArrayItemType n env (.array e) v (d + 1) o with ⟨r, v2⟩
          have hv2 : v2 = v := by
            have := ihP (.array e) v (d + 1) o
            rw [hpa] at this
            exact this
          cases r with
          | error e2 => simpa using hv2
          | ok items => simpa using hv2
    · intro t v d o
      simp only [parseArrayItemType]
      rcases hj : jsonTypeOf n env (elemOf t) v d o with ⟨r, v2⟩
      have hv2 : v2 = v := by
        have := ihJ (elemOf t) v d o
        rw [hj] at this
        exact this
      cases r with
      | error e => simpa using hv2
      | ok jv =>
        cases jv with
        | prim s => simpa using hv2
        | schema m => simpa using hv2
    · intro t v d o
      cases t <;> (simp only [structProperties]; try rfl)
      exact ihF _ _ _ _ _ _
    · intro fl v d o p r
      cases fl with
      | nil => rfl
      | cons fld rest =>
        simp only [structFields]
        split
        · exact ihF _ _ _ _ _ _
        · split
          · rcases hsp : structProperties n env fld.type v d o with ⟨res, v2⟩
            have hv2 : v2 = v := by
              have := ihS fld.type v d o
              rw [hsp] at this
              exact this
            cases res with
            | error e => simpa using hv2
            | ok pr =>
              obtain ⟨eP, eR⟩ := pr
              simpa [hv2] using ihF rest v2 d o (mergeAL p eP) (r ++ eR) |>.trans hv2
          · split
            · exact ihF _ _ _ _ _ _
            · rcases hj : jsonTypeOf n env fld.type v d o with ⟨res, v2⟩
              have hv2 : v2 = v := by
                have := ihJ fld.type v d o
                rw [hj] at this
                exact this
              cases res with
              | error e => simpa using hv2
              | ok fieldSchema =>
                cases fieldSchema <;>
                  simpa [hv2] using
                    (ihF rest v2 d o _ _).trans hv2

/-! ### The required accumulator only grows -/

/-- Whatever is already in the `required` accumulator survives into the
final required list (the loop only appends). -/
theorem structFields_req_extends (n : Nat) (env : Env) :
    ∀ (fl : List GoField) (v : Visited) (d : Nat) (o : Options) (p : SchemaM)
      (r : List String) (P : SchemaM) (R : List String) (v' : Visited),
      structFields n env fl v d o p r = (.ok (P, R), v') → ∀ x ∈ r, x ∈ R := by
  induction n with
  | zero =>
    intro fl v d o p r P R v' h
    simp [structFields] at h
  | succ n ih =>
    intro fl v d o p r P R v' h
    cases fl with
    | nil =>
      simp only [structFields, Prod.mk.injEq, Except.ok.injEq] at h
      obtain ⟨⟨-, hR⟩, -⟩ := h
      subst hR
      exact fun x hx => hx
    | cons fld rest =>
      simp only [structFields] at h
      by_cases hpk : fld.pkgPath ≠ ""
      · rw [if_pos hpk] at h
        exact ih rest v d o p r P R v' h
      · rw [if_neg hpk] at h
        by_cases han : fld.anonymous = true
        · rw [if_pos han] at h
          rcases hsp : structProperties n env fld.type v d o with ⟨res, v2⟩
          rw [hsp] at h
          cases res with
          | error e => simp at h
          | ok pr =>
            obtain ⟨eP, eR⟩ := pr
            intro x hx
            exact ih rest v2 d o _ (r ++ eR) P R v' h x (List.mem_append_left _ hx)
        · rw [if_neg han] at h
          by_cases htag : fld.tag = "-"
          · rw [if_pos htag] at h
            exact ih rest v d o p r P R v' h
          · rw [if_neg htag] at h
            rcases hj : jsonTypeOf n env fld.type v d o with ⟨res, v2⟩
            rw [hj] at h
            cases res with
            | error e => simp at h
            | ok jv =>
              intro x hx
              exact ih rest v2 d o _ (r ++ [(parseJSONTag fld.name fld.tag).1]) P R v' h
                x (List.mem_append_left _ hx)

/-! ### C1: optionality is expressed by null-union shaping -/

/-- **C1.**  A non-skipped, non-embedded, exported field whose computed
schema is a bare primitive name `s` is emitted as
`{"type": [s, "null"]}` when optional and as `{"type": s}` otherwise; a
field whose computed schema is a structured Schema `m` is emitted as
`{"anyOf": [m, {"type": "null"}]}` when optional and as `m` unchanged
otherwise; and in every case the field's emitted name is appended to
(and survives into) the record's required list. -/
theorem optional_field_null_union (n : Nat) (env : Env) (fld : GoField)
    (rest : List GoField) (v : Visited) (d : Nat) (o : Options) (props : SchemaM)
    (req : List String) (nm : String) (opt : Bool)
    (hx : fld.pkgPath = "") (ha : fld.anonymous = false) (hs : fld.tag ≠ "-")
    (ht : parseJSONTag fld.name fld.tag = (nm, opt)) :
    (∀ s v2, jsonTypeOf n env fld.type v d o = (.ok (.prim s), v2) →
      structFields (n + 1) env (fld :: rest) v d o props req
        = structFields n env rest v2 d o
            (insertAL props nm (if opt then .obj [("type", .strs [s, "null"])]
                                else .obj [("type", .str s)]))
            (req ++ [nm])) ∧
    (∀ m v2, jsonTypeOf n env fld.type v d o = (.ok (.schema m), v2) →
      structFields (n + 1) env (fld :: rest) v d o props req
        = structFields n env rest v2 d o
            (insertAL props nm
              (if opt then .obj [("anyOf", .svals [.obj m, .obj [("type", .str "null")]])]
               else .obj m))
            (req ++ [nm])) ∧
    (∀ jv v2 P R vf, jsonTypeOf n env fld.type v d o = (.ok jv, v2) →
      structFields (n + 1) env (fld :: rest) v d o props req = (.ok (P, R), vf) →
      nm ∈ R) := by
  have hstep : ∀ jv v2, jsonTypeOf n env fld.type v d o = (.ok jv, v2) →
      structFields (n + 1) env (fld :: rest) v d o props req
        = structFields n env rest v2 d o
            (insertAL props nm
              (match jv with
               | .prim s => if opt then SVal.obj [("type", .strs [s, "null"])]
                            else SVal.obj [("type", .str s)]
               | .schema m =>
                 if opt then SVal.obj [("anyOf", .svals [.obj m, .obj [("type", .str "null")]])]
                 else SVal.obj m))
            (req ++ [nm]) := by
    intro jv v2 hj
    simp only [structFields, hx, ha, if_neg hs, hj, ht]
    simp
  refine ⟨?_, ?_, ?_⟩
  · intro s v2 hj
    simpa using hstep (.prim s) v2 hj
  · intro m v2 hj
    simpa using hstep (.schema m) v2 hj
  · intro jv v2 P R vf hj hok
    rw [hstep jv v2 hj] at hok
    exact structFields_req_extends n env rest v2 d o _ (req ++ [nm]) P R vf hok nm
      (by simp)

/-- Witness for C1 at a concrete input: the `Email string
`json:"email,omitempty"`` field of `StructWithTags` is emitted as
`{"type": ["string", "null"]}` and `"email"` lands in `required`. -/
theorem optional_field_null_union_witness :
    structFields 6 structWithTagsEnv [⟨"Email", "email,omitempty", false, "", .string⟩]
        [] 1 defaultOptions [] []
      = structFields 5 structWithTagsEnv [] [] 1 defaultOptions
          (insertAL [] "email" (.obj [("type", .strs ["string", "null"])])) ["email"] := by
  have h := (optional_field_null_union 5 structWithTagsEnv
    ⟨"Email", "email,omitempty", false, "", .string⟩ [] [] 1 defaultOptions [] []
    "email" true rfl rfl (by decide) rfl).1 "string" [] rfl
  simpa using h

/-! ### C3: only the exact tag "-" skips a field (corrected) -/

/-- **C3**, as stated, is false: a tag whose *first segment* is `-` but
which has further segments (here `-,omitempty`) is not skipped — the
field is emitted under the name `-`, appearing in both `properties` and
`required`.  The source skips only when the whole tag is exactly `-`. -/
theorem skip_sentinel_counterexample :
    (jsonTypeOf 10 dashOptEnv (.strukt "DashOpt") [] 0 defaultOptions).1
      = .ok (.schema
          [("type", .str "object"),
           ("properties", .obj [("-", .obj [("type", .strs ["integer", "null"])])]),
           ("additionalProperties", .boolV false),
           ("required", .strs ["-"])]) := rfl

/-- **C3 (amended).**  A non-embedded exported field whose json tag is
*exactly* `-` is omitted entirely: the loop step leaves the properties
and required accumulators untouched and never converts the field's
type.  (A tag such as `-,omitempty` does *not* skip the field; it is
emitted under the name `-`, see the counterexample.) -/
theorem skip_tag_field_omitted (n : Nat) (env : Env) (fld : GoField)
    (rest : List GoField) (v : Visited) (d : Nat) (o : Options) (props : SchemaM)
    (req : List String)
    (hx : fld.pkgPath = "") (ha : fld.anonymous = false) (hs : fld.tag = "-") :
    structFields (n + 1) env (fld :: rest) v d o props req
      = structFields n env rest v d o props req := by
  simp only [structFields, hx, ha, hs]
  simp

/-- Witness for the amended C3: the `Hidden string `json:"-"`` field of
the `Skip` struct contributes nothing to the conversion. -/
theorem skip_tag_field_omitted_witness :
    structFields 8 dashEnv
        [⟨"Hidden", "-", false, "", .string⟩, ⟨"Shown", "shown", false, "", .string⟩]
        [] 1 defaultOptions [] []
      = structFields 7 dashEnv [⟨"Shown", "shown", false, "", .string⟩]
          [] 1 defaultOptions [] [] :=
  skip_tag_field_omitted 7 dashEnv ⟨"Hidden", "-", false, "", .string⟩
    [⟨"Shown", "shown", false, "", .string⟩] [] 1 defaultOptions [] [] rfl rfl rfl

/-! ### Properties maps have distinct keys -/

/-- The field loop preserves distinctness of property keys (insertion
overwrites in place, it never duplicates a key). -/
theorem structFields_nodup_keys (n : Nat) (env : Env) :
    ∀ (fl : List GoField) (v : Visited) (d : Nat) (o : Options) (p : SchemaM)
      (r : List String) (P : SchemaM) (R : List String) (v' : Visited),
      (keysAL p).Nodup → structFields n env fl v d o p r = (.ok (P, R), v') →
      (keysAL P).Nodup := by
  induction n with
  | zero =>
    intro fl v d o p r P R v' _ h
    simp [structFields] at h
  | succ n ih =>
    intro fl v d o p r P R v' hnd h
    cases fl with
    | nil =>
      simp only [structFields, Prod.mk.injEq, Except.ok.injEq] at h
      obtain ⟨⟨hP, -⟩, -⟩ := h
      subst hP
      exact hnd
    | cons fld rest =>
      simp only [structFields] at h
      by_cases hpk : fld.pkgPath ≠ ""
      · rw [if_pos hpk] at h
        exact ih rest v d o p r P R v' hnd h
      · rw [if_neg hpk] at h
        by_cases han : fld.anonymous = true
        · rw [if_pos han] at h
          rcases hsp : structProperties n env fld.type v d o with ⟨res, v2⟩
          rw [hsp] at h
          cases res with
          | error e => simp at h
          | ok pr =>
            obtain ⟨eP, eR⟩ := pr
            exact ih rest v2 d o _ (r ++ eR) P R v' (nodup_keysAL_mergeAL _ _ hnd) h
        · rw [if_neg han] at h
          by_cases htag : fld.tag = "-"
          · rw [if_pos htag] at h
            exact ih rest v d o p r P R v' hnd h
          · rw [if_neg htag] at h
            rcases hj : jsonTypeOf n env fld.type v d o with ⟨res, v2⟩
            rw [hj] at h
            cases res with
            | error e => simp at h
            | ok jv =>
              exact ih rest v2 d o _ _ P R v' (nodup_keysAL_insertAL _ _ _ hnd) h

/-- The properties map returned for a struct type has distinct keys. -/
theorem structProperties_nodup_keys (n : Nat) (env : Env) (t : GoType) (v : Visited)
    (d : Nat) (o : Options) (P : SchemaM) (R : List String) (v' : Visited)
    (h : structProperties n env t v d o = (.ok (P, R), v')) :
    (keysAL P).Nodup := by
  cases n with
  | zero => simp [structProperties] at h
  | succ n =>
    cases t <;> simp only [structProperties] at h <;> try simp at h
    exact structFields_nodup_keys n env _ v d o [] [] P R v' (by simp [keysAL]) h

/-! ### C5: embedded structs are flattened at the same depth -/

/-- **C5.**  An exported anonymous (embedded) field is processed by
recursing into its own field list *at the same depth*; its properties
are merged into the parent's map with the embedded entries overwriting
same-named earlier entries (last writer wins), and its required names
are appended to the parent's required list.  A later non-embedded field
in turn overwrites a same-named earlier (embedded) property. -/
theorem embedded_flattening (n : Nat) (env : Env) (fld : GoField)
    (rest : List GoField) (v : Visited) (d : Nat) (o : Options) (props : SchemaM)
    (req : List String)
    (hx : fld.pkgPath = "") (ha : fld.anonymous = true) :
    (∀ eP eR v2, structProperties n env fld.type v d o = (.ok (eP, eR), v2) →
      structFields (n + 1) env (fld :: rest) v d o props req
        = structFields n env rest v2 d o (mergeAL props eP) (req ++ eR)) ∧
    (∀ eP eR v2, structProperties n env fld.type v d o = (.ok (eP, eR), v2) →
      ∀ k ∈ keysAL eP, lookupAL (mergeAL props eP) k = lookupAL eP k) ∧
    (∀ nm s, lookupAL (insertAL props nm s) nm = some s) := by
  refine ⟨?_, ?_, ?_⟩
  · intro eP eR v2 hsp
    simp only [structFields, hx, ha, hsp]
    simp
  · intro eP eR v2 hsp k hk
    exact lookupAL_mergeAL_of_mem props eP k
      (structProperties_nodup_keys n env fld.type v d o eP eR v2 hsp) hk
  · intro nm s
    exact lookupAL_insertAL_self _ nm s

/-- Witness for C5 on `ExtendedInfo`: the embedded `BaseInfo` step
merges `{id, created_at}` flat into the parent at depth 1, appends
`["id", "created_at"]` to required, and a merged key is looked up from
the embedded map. -/
theorem embedded_flattening_witness :
    (structFields 9 embeddedEnv (lookupEnv embeddedEnv "ExtendedInfo") [] 1
        defaultOptions [] []
      = structFields 8 embeddedEnv
          [⟨"Title", "title", false, "", .string⟩,
           ⟨"Content", "content,omitempty", false, "", .string⟩] [] 1 defaultOptions
          (mergeAL [] [("id", .obj [("type", .str "integer")]),
                       ("created_at", .obj [("type", .str "string")])])
          ([] ++ ["id", "created_at"])) ∧
    lookupAL (mergeAL [] [("id", .obj [("type", .str "integer")]),
                          ("created_at", .obj [("type", .str "string")])]) "id"
      = some (.obj [("type", .str "integer")]) ∧
    lookupAL (insertAL [("x", .obj [("type", .str "string")])] "x"
        (.obj [("type", .str "integer")])) "x"
      = some (.obj [("type", .str "integer")]) := by
  refine ⟨?_, ?_, ?_⟩
  · exact (embedded_flattening 8 embeddedEnv ⟨"BaseInfo", "", true, "", .strukt "BaseInfo"⟩
      [⟨"Title", "title", false, "", .string⟩,
       ⟨"Content", "content,omitempty", false, "", .string⟩] [] 1 defaultOptions [] []
      rfl rfl).1
      [("id", .obj [("type", .str "integer")]), ("created_at", .obj [("type", .str "string")])]
      ["id", "created_at"] [] rfl
  · exact (embedded_flattening 8 embeddedEnv ⟨"BaseInfo", "", true, "", .strukt "BaseInfo"⟩
      [] [] 1 defaultOptions [] [] rfl rfl).2.1
      [("id", .obj [("type", .str "integer")]), ("created_at", .obj [("type", .str "string")])]
      ["id", "created_at"] [] rfl "id" (by simp [keysAL])
  · exact (embedded_flattening 8 dupNameEnv ⟨"Base", "", true, "", .strukt "Base"⟩
      [] [] 1 defaultOptions [("x", .obj [("type", .str "string")])] [] rfl rfl).2.2
      "x" (.obj [("type", .str "integer")])

/-! ### C6: cycle detection through the in-progress path set -/

/-- **C6.**  A struct type that is already marked in-progress is rejected
with CircularRef (this is what rejects direct self-reference, and
self-reference through one pointer level, since `deref` strips the
pointer before the check); concretely, `R{Self R}` and
`Node{Next *Node `json:"next,omitempty"`}` both fail with CircularRef,
while the non-cyclic `Pair{A C; B C}`, in which the same struct type
occurs in two sibling positions, converts successfully. -/
theorem circular_ref_detection :
    (∀ (n : Nat) (env : Env) (t : GoType) (v : Visited) (d : Nat) (o : Options)
      (nm : String),
      deref t = .strukt nm → nm ∈ v → ¬((d : Int) > o.maxDepth) →
      jsonTypeOf (n + 1) env t v d o = (.error .circularRef, v)) ∧
    jsonTypeOf 10 selfRefEnv (.strukt "R") [] 0 defaultOptions
      = (.error .circularRef, []) ∧
    jsonTypeOf 10 nodeEnv (.strukt "Node") [] 0 defaultOptions
      = (.error .circularRef, []) ∧
    (∃ m, (jsonTypeOf 10 siblingEnv (.strukt "Pair") [] 0 defaultOptions).1
      = .ok (.schema m)) := by
  refine ⟨?_, rfl, rfl, ⟨_, rfl⟩⟩
  intro n env t v d o nm hderef hmem hd
  simp only [jsonTypeOf, if_neg hd, hderef, if_pos hmem]

/-- Witness for C6's general conjunct: converting `C` while `C` is
already on the in-progress path fails with CircularRef. -/
theorem circular_ref_detection_witness :
    jsonTypeOf 5 siblingEnv (.strukt "C") ["C"] 0 defaultOptions
      = (.error .circularRef, ["C"]) :=
  circular_ref_detection.1 4 siblingEnv (.strukt "C") ["C"] 0 defaultOptions "C"
    rfl (by simp) (by decide)

/-! ### C7: the depth ceiling is checked before any other work -/

/-- **C7.**  Any call with `depth > MaxDepth` fails with CircularRef
before any other work, for every type (primitive leaves included);
concretely, `MaxDepth = 0` fails on a record with one nested record
field, `MaxDepth = 2` suffices for it, and a nested slice of a
primitive also trips the guard. -/
theorem max_depth_guard :
    (∀ (n : Nat) (env : Env) (t : GoType) (v : Visited) (d : Nat) (o : Options),
      (d : Int) > o.maxDepth → jsonTypeOf (n + 1) env t v d o = (.error .circularRef, v)) ∧
    jsonTypeOf 10 nestedEnv (.strukt "A") [] 0 ⟨false, 0⟩ = (.error .circularRef, []) ∧
    jsonTypeOf 10 nestedEnv (.strukt "A") [] 0 ⟨false, 2⟩
      = (.ok (.schema [("type", .str "object"),
          ("properties", .obj [("b", .obj [("type", .str "object"),
            ("properties", .obj [("x", .obj [("type", .str "integer")])]),
            ("additionalProperties", .boolV false),
            ("required", .strs ["x"])])]),
          ("additionalProperties", .boolV false),
          ("required", .strs ["b"])]), []) ∧
    jsonTypeOf 10 [] (.slice (.slice .string)) [] 0 ⟨false, 1⟩
      = (.error .circularRef, []) := by
  refine ⟨?_, rfl, rfl, rfl⟩
  intro n env t v d o hd
  simp only [jsonTypeOf, if_pos hd]

/-- Witness for C7's general conjunct: a bare primitive at depth 5 with
`MaxDepth = 2` fails with CircularRef. -/
theorem max_depth_guard_witness :
    jsonTypeOf 4 [] .string [] 5 ⟨false, 2⟩ = (.error .circularRef, []) :=
  max_depth_guard.1 3 [] .string [] 5 ⟨false, 2⟩ (by decide)

/-! ### C4: the primitive classifier is exhaustive and stable -/

/-- **C4.**  Within the depth ceiling, the dispatch classifies text as
`"string"`, boolean as `"boolean"`, every integer width as `"integer"`
and every float width as `"number"`; every kind outside the supported
set (map, channel, function, interface, complex numbers) fails with
UnsupportedType, both at top level and nested inside an array. -/
theorem primitive_dispatch :
    (∀ (n : Nat) (env : Env) (v : Visited) (d : Nat) (o : Options),
      ¬((d : Int) > o.maxDepth) →
      jsonTypeOf (n + 1) env .string v d o = (.ok (.prim "string"), v)) ∧
    (∀ (n : Nat) (env : Env) (v : Visited) (d : Nat) (o : Options),
      ¬((d : Int) > o.maxDepth) →
      jsonTypeOf (n + 1) env .bool v d o = (.ok (.prim "boolean"), v)) ∧
    (∀ (n : Nat) (env : Env) (v : Visited) (d : Nat) (o : Options),
      ¬((d : Int) > o.maxDepth) → ∀ t ∈ intKinds,
      jsonTypeOf (n + 1) env t v d o = (.ok (.prim "integer"), v)) ∧
    (∀ (n : Nat) (env : Env) (v : Visited) (d : Nat) (o : Options),
      ¬((d : Int) > o.maxDepth) → ∀ t ∈ floatKinds,
      jsonTypeOf (n + 1) env t v d o = (.ok (.prim "number"), v)) ∧
    (∀ (n : Nat) (env : Env) (v : Visited) (d : Nat) (o : Options),
      ¬((d : Int) > o.maxDepth) → ∀ t, isUnsupportedKind t = true →
      jsonTypeOf (n + 1) env t v d o = (.error .unsupportedType, v)) ∧
    (∀ (n : Nat) (env : Env) (v : Visited) (d : Nat) (o : Options),
      ¬((d : Int) > o.maxDepth) → ¬((d + 1 : Int) > o.maxDepth) →
      ∀ t, isUnsupportedKind t = true →
      jsonTypeOf (n + 3) env (.slice t) v d o = (.error .unsupportedType, v)) := by
  have hunsup : ∀ (n : Nat) (env : Env) (v : Visited) (d : Nat) (o : Options),
      ¬((d : Int) > o.maxDepth) → ∀ t, isUnsupportedKind t = true →
      jsonTypeOf (n + 1) env t v d o = (.error .unsupportedType, v) := by
    intro n env v d o hd t ht
    cases t <;> simp_all [jsonTypeOf, deref, isUnsupportedKind]
  refine ⟨?_, ?_, ?_, ?_, hunsup, ?_⟩
  · intro n env v d o hd
    simp [jsonTypeOf, deref, hd]
  · intro n env v d o hd
    simp [jsonTypeOf, deref, hd]
  · intro n env v d o hd t ht
    fin_cases ht <;> simp [jsonTypeOf, deref, hd]
  · intro n env v d o hd t ht
    fin_cases ht <;> simp [jsonTypeOf, deref, hd]
  · intro n env v d o hd hd1 t ht
    have he := hunsup n env v (d + 1) o (by exact_mod_cast hd1) t ht
    have hpa : parseArrayItemType (n + 2) env (.slice t) v (d + 1) o
        = (.error .unsupportedType, v) := by
      simp only [parseArrayItemType, elemOf, he]
    show jsonTypeOf (n + 2 + 1) env (.slice t) v d o = _
    simp only [jsonTypeOf, if_neg hd, deref, hpa]

/-- Witness for C4 at concrete inputs: `uint16` classifies as
`"integer"`, and a map fails with UnsupportedType at top level and
inside a slice. -/
theorem primitive_dispatch_witness :
    jsonTypeOf 3 [] .uint16 [] 0 defaultOptions = (.ok (.prim "integer"), []) ∧
    jsonTypeOf 3 [] (.mapT .string .int) [] 0 defaultOptions
      = (.error .unsupportedType, []) ∧
    jsonTypeOf 5 [] (.slice (.mapT .string .int)) [] 0 defaultOptions
      = (.error .unsupportedType, []) :=
  ⟨primitive_dispatch.2.2.1 2 [] [] 0 defaultOptions (by decide) .uint16 (by simp [intKinds]),
   primitive_dispatch.2.2.2.2.1 2 [] [] 0 defaultOptions (by decide)
     (.mapT .string .int) rfl,
   primitive_dispatch.2.2.2.2.2 2 [] [] 0 defaultOptions (by decide) (by decide)
     (.mapT .string .int) rfl⟩

/-! ### C10: successful results are primitive names or Schema values -/

/-- **C10.**  Whenever the dispatch succeeds it returns either one of
the four bare primitive name strings or a structured Schema value, and
`parseArrayItemType` always returns a structured Schema value — so the
`default` fall-through branches that pass other values through are
unreachable on successful recursive results. -/
theorem dispatch_result_shape :
    (∀ (n : Nat) (env : Env) (t : GoType) (v : Visited) (d : Nat) (o : Options)
      (r : JValue) (v2 : Visited),
      jsonTypeOf n env t v d o = (.ok r, v2) →
      (∃ s, r = .prim s ∧
        (s = "string" ∨ s = "boolean" ∨ s = "integer" ∨ s = "number")) ∨
      (∃ m, r = .schema m)) ∧
    (∀ (n : Nat) (env : Env) (t : GoType) (v : Visited) (d : Nat) (o : Options)
      (r : JValue) (v2 : Visited),
      parseArrayItemType n env t v d o = (.ok r, v2) → ∃ m, r = .schema m) := by
  constructor
  · intro n env t v d o r v2 h
    cases n with
    | zero => simp [jsonTypeOf] at h
    | succ n =>
      by_cases hd : (d : Int) > o.maxDepth
      · simp [jsonTypeOf, hd] at h
      · simp only [jsonTypeOf, if_neg hd] at h
        generalize hdt : deref t = dt at h
        cases dt with
        | strukt nm =>
          dsimp only at h
          by_cases hv : nm ∈ v
          · rw [if_pos hv] at h
            simp at h
          · rw [if_neg hv] at h
            rcases hsp : structProperties n env (.strukt nm) (nm :: v) (d + 1) o
              with ⟨res, v3⟩
            rw [hsp] at h
            cases res with
            | error e => simp at h
            | ok pr =>
              obtain ⟨P, R⟩ := pr
              right
              simp only [Prod.mk.injEq, Except.ok.injEq] at h
              exact ⟨_, h.1.symm⟩
        | slice e =>
          dsimp only at h
          rcases hpa : parseArrayItemType n env (.slice e) v (d + 1) o with ⟨res, v3⟩
          rw [hpa] at h
          cases res with
          | error e2 => simp at h
          | ok items =>
            right
            simp only [Prod.mk.injEq, Except.ok.injEq] at h
            exact ⟨_, h.1.symm⟩
        | array e =>
          dsimp only at h
          rcases hpa : parseArrayItemType n env (.array e) v (d + 1) o with ⟨res, v3⟩
          rw [hpa] at h
          cases res with
          | error e2 => simp at h
          | ok items =>
            right
            simp only [Prod.mk.injEq, Except.ok.injEq] at h
            exact ⟨_, h.1.symm⟩
        | ptr e => simp at h
        | mapT k vt => simp at h
        | chan e => simp at h
        | func => simp at h
        | iface => simp at h
        | complex64 => simp at h
        | complex128 => simp at h
        | string =>
          simp only [Prod.mk.injEq, Except.ok.injEq] at h
          obtain ⟨hr, -⟩ := h
          subst hr
          exact Or.inl ⟨_, rfl, by decide⟩
        | bool =>
          simp only [Prod.mk.injEq, Except.ok.injEq] at h
          obtain ⟨hr, -⟩ := h
          subst hr
          exact Or.inl ⟨_, rfl, by decide⟩
        | int =>
          simp only [Prod.mk.injEq, Except.ok.injEq] at h
          obtain ⟨hr, -⟩ := h
          subst hr
          exact Or.inl ⟨_, rfl, by decide⟩
        | int8 =>
          simp only [Prod.mk.injEq, Except.ok.injEq] at h
          obtain ⟨hr, -⟩ := h
          subst hr
          exact Or.inl ⟨_, rfl, by decide⟩
        | int16 =>
          simp only [Prod.mk.injEq, Except.ok.injEq] at h
          obtain ⟨hr, -⟩ := h
          subst hr
          exact Or.inl ⟨_, rfl, by decide⟩
        | int32 =>
          simp only [Prod.mk.injEq, Except.ok.injEq] at h
          obtain ⟨hr, -⟩ := h
          subst hr
          exact Or.inl ⟨_, rfl, by decide⟩
        | int64 =>
          simp only [Prod.mk.injEq, Except.ok.injEq] at h
          obtain ⟨hr, -⟩ := h
          subst hr
          exact Or.inl ⟨_, rfl, by decide⟩
        | uint =>
          simp only [Prod.mk.injEq, Except.ok.injEq] at h
          obtain ⟨hr, -⟩ := h
          subst hr
          exact Or.inl ⟨_, rfl, by decide⟩
        | uint8 =>
          simp only [Prod.mk.injEq, Except.ok.injEq] at h
          obtain ⟨hr, -⟩ := h
          subst hr
          exact Or.inl ⟨_, rfl, by decide⟩
        | uint16 =>
          simp only [Prod.mk.injEq, Except.ok.injEq] at h
          obtain ⟨hr, -⟩ := h
          subst hr
          exact Or.inl ⟨_, rfl, by decide⟩
        | uint32 =>
          simp only [Prod.mk.injEq, Except.ok.injEq] at h
          obtain ⟨hr, -⟩ := h
          subst hr
          exact Or.inl ⟨_, rfl, by decide⟩
        | uint64 =>
          simp only [Prod.mk.injEq, Except.ok.injEq] at h
          obtain ⟨hr, -⟩ := h
          subst hr
          exact Or.inl ⟨_, rfl, by decide⟩
        | float32 =>
          simp only [Prod.mk.injEq, Except.ok.injEq] at h
          obtain ⟨hr, -⟩ := h
          subst hr
          exact Or.inl ⟨_, rfl, by decide⟩
        | float64 =>
          simp only [Prod.mk.injEq, Except.ok.injEq] at h
          obtain ⟨hr, -⟩ := h
          subst hr
          exact Or.inl ⟨_, rfl, by decide⟩
  · intro n env t v d o r v2 h
    cases n with
    | zero => simp [parseArrayItemType] at h
    | succ n =>
      simp only [parseArrayItemType] at h
      rcases hj : jsonTypeOf n env (elemOf t) v d o with ⟨res, v3⟩
      rw [hj] at h
      cases res with
      | error e => simp at h
      | ok jv =>
        cases jv with
        | prim s =>
          simp only [Prod.mk.injEq, Except.ok.injEq] at h
          exact ⟨_, h.1.symm⟩
        | schema m =>
          simp only [Prod.mk.injEq, Except.ok.injEq] at h
          exact ⟨_, h.1.symm⟩

/-- Witness for C10 on concrete successful conversions: a boolean leaf
and a slice-of-int element schema. -/
theorem dispatch_result_shape_witness :
    ((∃ s, (JValue.prim "boolean") = .prim s ∧
        (s = "string" ∨ s = "boolean" ∨ s = "integer" ∨ s = "number")) ∨
      (∃ m, (JValue.prim "boolean") = .schema m)) ∧
    (∃ m, (JValue.schema [("type", .str "integer")]) = .schema m) :=
  ⟨dispatch_result_shape.1 1 [] .bool [] 0 defaultOptions (.prim "boolean") [] rfl,
   dispatch_result_shape.2 2 [] (.slice .int) [] 0 defaultOptions
     (.schema [("type", .str "integer")]) [] rfl⟩

/-! ### C8: no in-progress marker survives any call -/

/-- **C8.**  Whether the conversion returns a schema or an error, the
visited path set observed by the caller after the call equals the one
passed in — in particular a top-level call started with the empty path
set ends with the empty path set, on success, on error, and on
embedded-field error alike. -/
theorem path_set_restored (n : Nat) (env : Env) (t : GoType) (v : Visited)
    (d : Nat) (o : Options) : (jsonTypeOf n env t v d o).2 = v :=
  (visited_preserved n env).1 t v d o

/-! ### C2: required vs. property keys (corrected) -/

/-- Set-level correspondence between the final required list and the
final property keys of the field loop, relative to the accumulators. -/
theorem structFields_mem_characterization (n : Nat) (env : Env) :
    (∀ (fl : List GoField) (v : Visited) (d : Nat) (o : Options) (p : SchemaM)
      (r : List String) (P : SchemaM) (R : List String) (v' : Visited),
      structFields n env fl v d o p r = (.ok (P, R), v') →
      (∀ x, x ∈ R → x ∈ r ∨ x ∈ keysAL P) ∧
      (∀ x, x ∈ keysAL P → x ∈ keysAL p ∨ x ∈ R) ∧
      (∀ x, x ∈ keysAL p → x ∈ keysAL P)) ∧
    (∀ (t : GoType) (v : Visited) (d : Nat) (o : Options) (P : SchemaM)
      (R : List String) (v' : Visited),
      structProperties n env t v d o = (.ok (P, R), v') →
      ∀ x, x ∈ R ↔ x ∈ keysAL P) := by
  induction n with
  | zero =>
    constructor
    · intro fl v d o p r P R v' h
      simp [structFields] at h
    · intro t v d o P R v' h
      simp [structProperties] at h
  | succ n ih =>
    obtain ⟨ihF, ihS⟩ := ih
    constructor
    · intro fl v d o p r P R v' h
      cases fl with
      | nil =>
        simp only [structFields, Prod.mk.injEq, Except.ok.injEq] at h
        obtain ⟨⟨hP, hR⟩, -⟩ := h
        subst hP
        subst hR
        exact ⟨fun x hx => Or.inl hx, fun x hx => Or.inl hx, fun x hx => hx⟩
      | cons fld rest =>
        simp only [structFields] at h
        by_cases hpk : fld.pkgPath ≠ ""
        · rw [if_pos hpk] at h
          exact ihF rest v d o p r P R v' h
        · rw [if_neg hpk] at h
          by_cases han : fld.anonymous = true
          · rw [if_pos han] at h
            rcases hsp : structProperties n env fld.type v d o with ⟨res, v2⟩
            rw [hsp] at h
            cases res with
            | error e => simp at h
            | ok pr =>
              obtain ⟨eP, eR⟩ := pr
              obtain ⟨c1, c2, c3⟩ := ihF rest v2 d o _ _ P R v' h
              have hiff := ihS fld.type v d o eP eR v2 hsp
              refine ⟨?_, ?_, ?_⟩
              · intro x hx
                rcases c1 x hx with hx' | hx'
                · rcases List.mem_append.1 hx' with h1 | h1
                  · exact Or.inl h1
                  · exact Or.inr (c3 x
                      ((mem_keysAL_mergeAL p eP x).2 (Or.inr ((hiff x).1 h1))))
                · exact Or.inr hx'
              · intro x hx
                rcases c2 x hx with hx' | hx'
                · rcases (mem_keysAL_mergeAL p eP x).1 hx' with h1 | h1
                  · exact Or.inl h1
                  · exact Or.inr (structFields_req_extends n env rest v2 d o _ _ P R v' h x
                      (List.mem_append.2 (Or.inr ((hiff x).2 h1))))
                · exact Or.inr hx'
              · intro x hx
                exact c3 x ((mem_keysAL_mergeAL p eP x).2 (Or.inl hx))
          · rw [if_neg han] at h
            by_cases htag : fld.tag = "-"
            · rw [if_pos htag] at h
              exact ihF rest v d o p r P R v' h
            · rw [if_neg htag] at h
              rcases hj : jsonTypeOf n env fld.type v d o with ⟨res, v2⟩
              rw [hj] at h
              cases res with
              | error e => simp at h
              | ok jv =>
                obtain ⟨c1, c2, c3⟩ := ihF rest v2 d o _ _ P R v' h
                refine ⟨?_, ?_, ?_⟩
                · intro x hx
                  rcases c1 x hx with hx' | hx'
                  · rcases List.mem_append.1 hx' with h1 | h1
                    · exact Or.inl h1
                    · refine Or.inr (c3 x ((mem_keysAL_insertAL p _ _ x).2
                        (Or.inl ?_)))
                      simpa using h1
                  · exact Or.inr hx'
                · intro x hx
                  rcases c2 x hx with hx' | hx'
                  · rcases (mem_keysAL_insertAL p _ _ x).1 hx' with h1 | h1
                    · exact Or.inr (structFields_req_extends n env rest v2 d o _ _ P R v' h x
                        (by simp [h1]))
                    · exact Or.inl h1
                  · exact Or.inr hx'
                · intro x hx
                  exact c3 x ((mem_keysAL_insertAL p _ _ x).2 (Or.inr hx))
    · intro t v d o P R v' h
      cases t <;> simp only [structProperties] at h <;> try simp at h
      rename_i name
      obtain ⟨c1, c2, c3⟩ := ihF (lookupEnv env name) v d o [] [] P R v' h
      intro x
      constructor
      · intro hx
        rcases c1 x hx with hx' | hx'
        · simp at hx'
        · exact hx'
      · intro hx
        rcases c2 x hx with hx' | hx'
        · simp [keysAL] at hx'
        · exact hx'

/-- **C2**, as stated, is false on the code: when an embedded
substructure and a later field share the emitted name `x`, the name is
appended to `required` twice (once from the embedded required list,
once for the field), while `properties` holds a single `x` entry — so
`required` is not duplicate-free. -/
theorem required_duplicate_counterexample :
    (structProperties 10 dupNameEnv (.strukt "Outer") [] 1 defaultOptions).1
      = .ok ([("x", .obj [("type", .str "integer")])], ["x", "x"]) ∧
    ¬ (["x", "x"] : List String).Nodup :=
  ⟨rfl, by decide⟩

/-- **C2 (amended).**  For every struct type successfully converted,
the required list contains exactly the *set* of emitted property names
(a name is in `required` iff it is a key of `properties`, including
names contributed by embedded substructures, regardless of
optionality) — but it is a list with multiplicity: a name emitted by
both an embedded substructure and a later field appears twice. -/
theorem required_matches_property_keys (n : Nat) (env : Env) (t : GoType)
    (v : Visited) (d : Nat) (o : Options) (P : SchemaM) (R : List String)
    (v' : Visited) (h : structProperties n env t v d o = (.ok (P, R), v')) :
    ∀ x, x ∈ R ↔ x ∈ keysAL P :=
  (structFields_mem_characterization n env).2 t v d o P R v' h

/-- Witness for the amended C2 on `ExtendedInfo` (embedded `BaseInfo`
plus two own fields): `"title"` is in `required` iff it is among the
property keys. -/
theorem required_matches_property_keys_witness :
    "title" ∈ ["id", "created_at", "title", "content"] ↔
      "title" ∈ keysAL
        [("id", .obj [("type", .str "integer")]),
         ("created_at", .obj [("type", .str "string")]),
         ("title", .obj [("type", .str "string")]),
         ("content", .obj [("type", .strs ["string", "null"])])] :=
  required_matches_property_keys 10 embeddedEnv (.strukt "ExtendedInfo") [] 1
    defaultOptions _ _ [] rfl "title"

/-! ### Fuel monotonicity -/

/-- Once enough fuel is supplied for a call to complete (its result is
not the fuel sentinel), adding more fuel does not change the result. -/
theorem fuel_mono (n : Nat) (env : Env) :
    (∀ m t v d o, n ≤ m → (jsonTypeOf n env t v d o).1 ≠ .error .noFuel →
      jsonTypeOf m env t v d o = jsonTypeOf n env t v d o) ∧
    (∀ m t v d o, n ≤ m → (parseArrayItemType n env t v d o).1 ≠ .error .noFuel →
      parseArrayItemType m env t v d o = parseArrayItemType n env t v d o) ∧
    (∀ m t v d o, n ≤ m → (structProperties n env t v d o).1 ≠ .error .noFuel →
      structProperties m env t v d o = structProperties n env t v d o) ∧
    (∀ m fl v d o p r, n ≤ m → (structFields n env fl v d o p r).1 ≠ .error .noFuel →
      structFields m env fl v d o p r = structFields n env fl v d o p r) := by
  induction n with
  | zero =>
    refine ⟨?_, ?_, ?_, ?_⟩
    · intro m t v d o _ hne
      exact absurd rfl hne
    · intro m t v d o _ hne
      exact absurd rfl hne
    · intro m t v d o _ hne
      exact absurd rfl hne
    · intro m fl v d o p r _ hne
      exact absurd rfl hne
  | succ n ih =>
    obtain ⟨ihJ, ihP, ihS, ihF⟩ := ih
    refine ⟨?_, ?_, ?_, ?_⟩
    · intro m t v d o hm hne
      obtain ⟨m', rfl⟩ : ∃ m', m = m' + 1 := ⟨m - 1, by omega⟩
      have hm' : n ≤ m' := by omega
      by_cases hd : (d : Int) > o.maxDepth
      · simp [jsonTypeOf, hd]
      · simp only [jsonTypeOf, if_neg hd] at hne ⊢
        generalize hdt : deref t = dt at hne ⊢
        cases dt with
        | strukt nm =>
          dsimp only at hne ⊢
          by_cases hv : nm ∈ v
          · simp only [if_pos hv]
          · rw [if_neg hv] at hne
            simp only [if_neg hv]
            rcases hsp : structProperties n env (.strukt nm) (nm :: v) (d + 1) o
              with ⟨res, v2⟩
            rw [hsp] at hne
            have hres : res ≠ .error .noFuel := by
              intro hcon
              subst hcon
              exact hne rfl
            have := ihS m' (.strukt nm) (nm :: v) (d + 1) o hm' (by rw [hsp]; exact hres)
            rw [hsp] at this
            rw [this]
        | slice e =>
          dsimp only at hne ⊢
          rcases hpa : parseArrayItemType n env (.slice e) v (d + 1) o with ⟨res, v2⟩
          rw [hpa] at hne
          have hres : res ≠ .error .noFuel := by
            intro hcon
            subst hcon
            exact hne rfl
          have := ihP m' (.slice e) v (d + 1) o hm' (by rw [hpa]; exact hres)
          rw [hpa] at this
          rw [this]
        | array e =>
          dsimp only at hne ⊢
          rcases hpa : parseArrayItemType n env (.array e) v (d + 1) o with ⟨res, v2⟩
          rw [hpa] at hne
          have hres : res ≠ .error .noFuel := by
            intro hcon
            subst hcon
            exact hne rfl
          have := ihP m' (.array e) v (d + 1) o hm' (by rw [hpa]; exact hres)
          rw [hpa] at this
          rw [this]
        | string => rfl
        | bool => rfl
        | int => rfl
        | int8 => rfl
        | int16 => rfl
        | int32 => rfl
        | int64 => rfl
        | uint => rfl
        | uint8 => rfl
        | uint16 => rfl
        | uint32 => rfl
        | uint64 => rfl
        | float32 => rfl
        | float64 => rfl
        | ptr e => rfl
        | mapT k vt => rfl
        | chan e => rfl
        | func => rfl
        | iface => rfl
        | complex64 => rfl
        | complex128 => rfl
    · intro m t v d o hm hne
      obtain ⟨m', rfl⟩ : ∃ m', m = m' + 1 := ⟨m - 1, by omega⟩
      have hm' : n ≤ m' := by omega
      simp only [parseArrayItemType] at hne ⊢
      rcases hj : jsonTypeOf n env (elemOf t) v d o with ⟨res, v2⟩
      rw [hj] at hne
      have hres : res ≠ .error .noFuel := by
        intro hcon
        subst hcon
        exact hne rfl
      have := ihJ m' (elemOf t) v d o hm' (by rw [hj]; exact hres)
      rw [hj] at this
      rw [this]
    · intro m t v d o hm hne
      obtain ⟨m', rfl⟩ : ∃ m', m = m' + 1 := ⟨m - 1, by omega⟩
      have hm' : n ≤ m' := by omega
      cases t with
      | strukt nm =>
        simp only [structProperties] at hne ⊢
        exact ihF m' (lookupEnv env nm) v d o [] [] hm' hne
      | string => rfl
      | bool => rfl
      | int => rfl
      | int8 => rfl
      | int16 => rfl
      | int32 => rfl
      | int64 => rfl
      | uint => rfl
      | uint8 => rfl
      | uint16 => rfl
      | uint32 => rfl
      | uint64 => rfl
      | float32 => rfl
      | float64 => rfl
      | ptr e => rfl
      | slice e => rfl
      | array e => rfl
      | mapT k vt => rfl
      | chan e => rfl
      | func => rfl
      | iface => rfl
      | complex64 => rfl
      | complex128 => rfl
    · intro m fl v d o p r hm hne
      obtain ⟨m', rfl⟩ : ∃ m', m = m' + 1 := ⟨m - 1, by omega⟩
      have hm' : n ≤ m' := by omega
      cases fl with
      | nil => rfl
      | cons fld rest =>
        simp only [structFields] at hne ⊢
        by_cases hpk : fld.pkgPath ≠ ""
        · rw [if_pos hpk] at hne
          simp only [if_pos hpk]
          exact ihF m' rest v d o p r hm' hne
        · rw [if_neg hpk] at hne
          simp only [if_neg hpk]
          by_cases han : fld.anonymous = true
          · rw [if_pos han] at hne
            simp only [if_pos han]
            rcases hsp : structProperties n env fld.type v d o with ⟨res, v2⟩
            rw [hsp] at hne
            have hres : res ≠ .error .noFuel := by
              intro hcon
              subst hcon
              exact hne rfl
            have heq := ihS m' fld.type v d o hm' (by rw [hsp]; exact hres)
            rw [hsp] at heq
            rw [heq]
            cases res with
            | error e => rfl
            | ok pr =>
              obtain ⟨eP, eR⟩ := pr
              exact ihF m' rest v2 d o (mergeAL p eP) (r ++ eR) hm' hne
          · rw [if_neg han] at hne
            simp only [if_neg han]
            by_cases htag : fld.tag = "-"
            · rw [if_pos htag] at hne
              simp only [if_pos htag]
              exact ihF m' rest v d o p r hm' hne
            · rw [if_neg htag] at hne
              simp only [if_neg htag]
              rcases hj : jsonTypeOf n env fld.type v d o with ⟨res, v2⟩
              rw [hj] at hne
              have hres : res ≠ .error .noFuel := by
                intro hcon
                subst hcon
                exact hne rfl
              have heq := ihJ m' fld.type v d o hm' (by rw [hj]; exact hres)
              rw [hj] at heq
              rw [heq]
              cases res with
              | error e => rfl
              | ok jv =>
                exact ihF m' rest v2 d o _ _ hm' hne

/-! ### Sufficient fuel exists -/

/-- Calling the field iterator on a non-struct type (possible only via
an embedded non-struct field) is Go's `NumField` panic. -/
theorem structProperties_nonstruct (t : GoType) (hns : ∀ nm', t ≠ .strukt nm')
    (n : Nat) (env : Env) (v : Visited) (d : Nat) (o : Options) :
    structProperties (n + 1) env t v d o = (.error .nonStructPanic, v) := by
  cases t <;> first
    | (rename_i nm; exact absurd rfl (hns nm))
    | simp [structProperties]

/-- Under a rank function certifying that embedded struct references
strictly descend (as Go's value-embedding rules guarantee), enough fuel
exists for every conversion to complete: depth-indexed induction on the
remaining depth budget, with an inner induction on the embedding rank
and on the field list. -/
theorem fuel_sufficient (env : Env) (o : Options) (rank : String → Nat)
    (Hrank : ∀ nm fld, fld ∈ lookupEnv env nm → fld.anonymous = true →
      ∀ nm', fld.type = .strukt nm' → rank nm' < rank nm) :
    ∀ a : Nat,
      (∀ (t : GoType) (d : Nat), (o.maxDepth + 2 - (d : Int)) ≤ (a : Int) →
        ∃ n, ∀ v, (jsonTypeOf n env t v d o).1 ≠ .error .noFuel) ∧
      (∀ (c : Nat) (t : GoType) (d : Nat), rankOf rank t ≤ c →
        (o.maxDepth + 2 - (d : Int)) ≤ (a : Int) →
        ∃ n, ∀ v, (structProperties n env t v d o).1 ≠ .error .noFuel) := by
  intro a
  induction a using Nat.strong_induction_on with
  | _ a IH =>
  have hPj : ∀ (t : GoType) (d : Nat), (o.maxDepth + 2 - (d : Int)) ≤ (a : Int) →
      ∃ n, ∀ v, (jsonTypeOf n env t v d o).1 ≠ .error .noFuel := by
    intro t d hb
    by_cases hd : (d : Int) > o.maxDepth
    · exact ⟨1, fun v => by simp [jsonTypeOf, hd]⟩
    · have ha1 : a - 1 < a := by omega
      have hb1 : (o.maxDepth + 2 - ((d + 1 : Nat) : Int)) ≤ ((a - 1 : Nat) : Int) := by
        push_cast
        omega
      cases hdt : deref t with
      | strukt nm =>
        obtain ⟨-, hPs'⟩ := IH (a - 1) ha1
        obtain ⟨ns, hns⟩ := hPs' (rank nm) (.strukt nm) (d + 1) (le_refl _) hb1
        refine ⟨ns + 1, fun v => ?_⟩
        simp only [jsonTypeOf, if_neg hd, hdt]
        by_cases hv : nm ∈ v
        · simp [hv]
        · simp only [if_neg hv]
          rcases hsp : structProperties ns env (.strukt nm) (nm :: v) (d + 1) o
            with ⟨res, v2⟩
          have hres : res ≠ .error .noFuel := by
            have := hns (nm :: v)
            rw [hsp] at this
            exact this
          cases res with
          | error e => simpa using hres
          | ok pr =>
            obtain ⟨P, R⟩ := pr
            simp
      | slice e =>
        obtain ⟨hPj', -⟩ := IH (a - 1) ha1
        obtain ⟨nj, hnj⟩ := hPj' e (d + 1) hb1
        refine ⟨nj + 2, fun v => ?_⟩
        simp only [jsonTypeOf, if_neg hd, hdt]
        rcases hj : jsonTypeOf nj env e v (d + 1) o with ⟨res, v2⟩
        have hres : res ≠ .error .noFuel := by
          have := hnj v
          rw [hj] at this
          exact this
        simp only [parseArrayItemType, elemOf, hj]
        cases res with
        | error e2 => simpa using hres
        | ok jv => cases jv <;> simp
      | array e =>
        obtain ⟨hPj', -⟩ := IH (a - 1) ha1
        obtain ⟨nj, hnj⟩ := hPj' e (d + 1) hb1
        refine ⟨nj + 2, fun v => ?_⟩
        simp only [jsonTypeOf, if_neg hd, hdt]
        rcases hj : jsonTypeOf nj env e v (d + 1) o with ⟨res, v2⟩
        have hres : res ≠ .error .noFuel := by
          have := hnj v
          rw [hj] at this
          exact this
        simp only [parseArrayItemType, elemOf, hj]
        cases res with
        | error e2 => simpa using hres
        | ok jv => cases jv <;> simp
      | string => exact ⟨1, fun v => by simp [jsonTypeOf, hd, hdt]⟩
      | bool => exact ⟨1, fun v => by simp [jsonTypeOf, hd, hdt]⟩
      | int => exact ⟨1, fun v => by simp [jsonTypeOf, hd, hdt]⟩
      | int8 => exact ⟨1, fun v => by simp [jsonTypeOf, hd, hdt]⟩
      | int16 => exact ⟨1, fun v => by simp [jsonTypeOf, hd, hdt]⟩
      | int32 => exact ⟨1, fun v => by simp [jsonTypeOf, hd, hdt]⟩
      | int64 => exact ⟨1, fun v => by simp [jsonTypeOf, hd, hdt]⟩
      | uint => exact ⟨1, fun v => by simp [jsonTypeOf, hd, hdt]⟩
      | uint8 => exact ⟨1, fun v => by simp [jsonTypeOf, hd, hdt]⟩
      | uint16 => exact ⟨1, fun v => by simp [jsonTypeOf, hd, hdt]⟩
      | uint32 => exact ⟨1, fun v => by simp [jsonTypeOf, hd, hdt]⟩
      | uint64 => exact ⟨1, fun v => by simp [jsonTypeOf, hd, hdt]⟩
      | float32 => exact ⟨1, fun v => by simp [jsonTypeOf, hd, hdt]⟩
      | float64 => exact ⟨1, fun v => by simp [jsonTypeOf, hd, hdt]⟩
      | ptr e => exact ⟨1, fun v => by simp [jsonTypeOf, hd, hdt]⟩
      | mapT k vt => exact ⟨1, fun v => by simp [jsonTypeOf, hd, hdt]⟩
      | chan e => exact ⟨1, fun v => by simp [jsonTypeOf, hd, hdt]⟩
      | func => exact ⟨1, fun v => by simp [jsonTypeOf, hd, hdt]⟩
      | iface => exact ⟨1, fun v => by simp [jsonTypeOf, hd, hdt]⟩
      | complex64 => exact ⟨1, fun v => by simp [jsonTypeOf, hd, hdt]⟩
      | complex128 => exact ⟨1, fun v => by simp [jsonTypeOf, hd, hdt]⟩
  refine ⟨hPj, ?_⟩
  intro c
  induction c using Nat.strong_induction_on with
  | _ c IHc =>
  intro t d hrk hb
  cases t with
  | strukt nm =>
    have hfields : ∀ fs, (∀ fld ∈ fs, fld ∈ lookupEnv env nm) →
        ∃ n, ∀ v p r, (structFields n env fs v d o p r).1 ≠ .error .noFuel := by
      intro fs hfs
      induction fs with
      | nil => exact ⟨1, fun v p r => by simp [structFields]⟩
      | cons fld rest ihrest =>
        obtain ⟨n2, hn2⟩ := ihrest (fun f hf => hfs f (List.mem_cons_of_mem _ hf))
        by_cases hpk : fld.pkgPath ≠ ""
        · refine ⟨n2 + 1, fun v p r => ?_⟩
          simp only [structFields, if_pos hpk]
          exact hn2 v p r
        · by_cases han : fld.anonymous = true
          · have hemb : ∃ ns, ∀ v, (structProperties ns env fld.type v d o).1
                ≠ .error .noFuel := by
              by_cases hstr : ∃ nm', fld.type = .strukt nm'
              · obtain ⟨nm', hft⟩ := hstr
                have hlt : rank nm' < c :=
                  lt_of_lt_of_le
                    (Hrank nm fld (hfs fld (List.mem_cons_self _ _)) han nm' hft)
                    hrk
                rw [hft]
                exact IHc (rank nm') hlt (.strukt nm') d (le_refl _) hb
              · push_neg at hstr
                refine ⟨1, fun v => ?_⟩
                rw [show (1 : Nat) = 0 + 1 from rfl,
                  structProperties_nonstruct fld.type hstr 0 env v d o]
                simp
            obtain ⟨ns, hns⟩ := hemb
            have hrest_any : ∀ v' p' r',
                (structFields (max ns n2) env rest v' d o p' r').1 ≠ .error .noFuel := by
              intro v' p' r'
              rcases hrest : structFields n2 env rest v' d o p' r' with ⟨res2, v3⟩
              have hres2 : res2 ≠ .error .noFuel := by
                have := hn2 v' p' r'
                rw [hrest] at this
                exact this
              have hmono2 := (fuel_mono n2 env).2.2.2 (max ns n2) rest v' d o p' r'
                (le_max_right _ _) (by rw [hrest]; exact hres2)
              rw [hrest] at hmono2
              rw [hmono2]
              exact hres2
            refine ⟨max ns n2 + 1, fun v p r => ?_⟩
            simp only [structFields, if_neg hpk, if_pos han]
            rcases hsp : structProperties ns env fld.type v d o with ⟨res, v2⟩
            have hres : res ≠ .error .noFuel := by
              have := hns v
              rw [hsp] at this
              exact this
            have hmono := (fuel_mono ns env).2.2.1 (max ns n2) fld.type v d o
              (le_max_left _ _) (by rw [hsp]; exact hres)
            rw [hsp] at hmono
            rw [hmono]
            cases res with
            | error e => simpa using hres
            | ok pr =>
              obtain ⟨eP, eR⟩ := pr
              exact hrest_any v2 _ _
          · by_cases htag : fld.tag = "-"
            · refine ⟨n2 + 1, fun v p r => ?_⟩
              simp only [structFields, if_neg hpk, if_neg han, if_pos htag]
              exact hn2 v p r
            · obtain ⟨nj, hnj⟩ := hPj fld.type d hb
              have hrest_any : ∀ v' p' r',
                  (structFields (max nj n2) env rest v' d o p' r').1 ≠ .error .noFuel := by
                intro v' p' r'
                rcases hrest : structFields n2 env rest v' d o p' r' with ⟨res2, v3⟩
                have hres2 : res2 ≠ .error .noFuel := by
                  have := hn2 v' p' r'
                  rw [hrest] at this
                  exact this
                have hmono2 := (fuel_mono n2 env).2.2.2 (max nj n2) rest v' d o p' r'
                  (le_max_right _ _) (by rw [hrest]; exact hres2)
                rw [hrest] at hmono2
                rw [hmono2]
                exact hres2
              refine ⟨max nj n2 + 1, fun v p r => ?_⟩
              simp only [structFields, if_neg hpk, if_neg han, if_neg htag]
              rcases hj : jsonTypeOf nj env fld.type v d o with ⟨res, v2⟩
              have hres : res ≠ .error .noFuel := by
                have := hnj v
                rw [hj] at this
                exact this
              have hmono := (fuel_mono nj env).1 (max nj n2) fld.type v d o
                (le_max_left _ _) (by rw [hj]; exact hres)
              rw [hj] at hmono
              rw [hmono]
              cases res with
              | error e => simpa using hres
              | ok jv => exact hrest_any v2 _ _
    obtain ⟨nf, hnf⟩ := hfields (lookupEnv env nm) (fun f hf => hf)
    refine ⟨nf + 1, fun v => ?_⟩
    simp only [structProperties]
    exact hnf v [] []
  | string => exact ⟨1, fun v => by simp [structProperties]⟩
  | bool => exact ⟨1, fun v => by simp [structProperties]⟩
  | int => exact ⟨1, fun v => by simp [structProperties]⟩
  | int8 => exact ⟨1, fun v => by simp [structProperties]⟩
  | int16 => exact ⟨1, fun v => by simp [structProperties]⟩
  | int32 => exact ⟨1, fun v => by simp [structProperties]⟩
  | int64 => exact ⟨1, fun v => by simp [structProperties]⟩
  | uint => exact ⟨1, fun v => by simp [structProperties]⟩
  | uint8 => exact ⟨1, fun v => by simp [structProperties]⟩
  | uint16 => exact ⟨1, fun v => by simp [structProperties]⟩
  | uint32 => exact ⟨1, fun v => by simp [structProperties]⟩
  | uint64 => exact ⟨1, fun v => by simp [structProperties]⟩
  | float32 => exact ⟨1, fun v => by simp [structProperties]⟩
  | float64 => exact ⟨1, fun v => by simp [structProperties]⟩
  | ptr e => exact ⟨1, fun v => by simp [structProperties]⟩
  | slice e => exact ⟨1, fun v => by simp [structProperties]⟩
  | array e => exact ⟨1, fun v => by simp [structProperties]⟩
  | mapT k vt => exact ⟨1, fun v => by simp [structProperties]⟩
  | chan e => exact ⟨1, fun v => by simp [structProperties]⟩
  | func => exact ⟨1, fun v => by simp [structProperties]⟩
  | iface => exact ⟨1, fun v => by simp [structProperties]⟩
  | complex64 => exact ⟨1, fun v => by simp [structProperties]⟩
  | complex128 => exact ⟨1, fun v => by simp [structProperties]⟩

/-! ### C9: the conversion terminates -/

/-- **C9.**  For every type descriptor over an environment whose
embedded (anonymous, by-value) struct references strictly descend along
some rank — as Go's type system guarantees, while pointer/slice cycles
remain freely representable — and for every finite MaxDepth, the
conversion terminates: some fuel makes the result definite (not the
fuel sentinel), and every larger fuel returns the same result.  Depth
is bounded by MaxDepth, the in-progress set cuts re-expansion, and
embedded flattening descends only through the finite field structure. -/
theorem conversion_terminates (env : Env) (o : Options) (rank : String → Nat)
    (Hrank : ∀ nm fld, fld ∈ lookupEnv env nm → fld.anonymous = true →
      ∀ nm', fld.type = .strukt nm' → rank nm' < rank nm)
    (t : GoType) (v : Visited) (d : Nat) :
    ∃ n, (jsonTypeOf n env t v d o).1 ≠ .error .noFuel ∧
      ∀ m, n ≤ m → jsonTypeOf m env t v d o = jsonTypeOf n env t v d o := by
  obtain ⟨n, hn⟩ := (fuel_sufficient env o rank Hrank
    (o.maxDepth + 2 - (d : Int)).toNat).1 t d (Int.self_le_toNat _)
  exact ⟨n, hn v, fun m hm => (fuel_mono n env).1 m t v d o hm (hn v)⟩

/-- Witness for C9 on the genuinely cyclic `Node` environment (a struct
holding a pointer to itself): with the constant rank (no anonymous
fields exist), the conversion of `Node` from the top level terminates. -/
theorem conversion_terminates_witness :
    ∃ n, (jsonTypeOf n nodeEnv (.strukt "Node") [] 0 defaultOptions).1
        ≠ .error .noFuel ∧
      ∀ m, n ≤ m → jsonTypeOf m nodeEnv (.strukt "Node") [] 0 defaultOptions
        = jsonTypeOf n nodeEnv (.strukt "Node") [] 0 defaultOptions := by
  refine conversion_terminates nodeEnv defaultOptions (fun _ => 0) ?_
    (.strukt "Node") [] 0
  intro nm fld hmem hanon nm' _
  exfalso
  unfold lookupEnv at hmem
  rcases hf : nodeEnv.find? (fun p => p.1 == nm) with - | pr
  · rw [hf] at hmem
    simp at hmem
  · rw [hf] at hmem
    have hpr := List.mem_of_find?_eq_some hf
    simp only [nodeEnv, List.mem_singleton] at hpr
    subst hpr
    simp only [nodeEnv, List.mem_cons, List.mem_singleton, List.not_mem_nil,
      or_false] at hmem
    rcases hmem with h | h
    · rw [h] at hanon
      simp at hanon
    · rw [h] at hanon
      simp at hanon

end GptSchema
